import Mathlib

/-!
Verification development for the mc-rcon RCON client (src/mc-rcon.go).

The packet codec (`rconPacket.serialize`, `parsePacket`), the frame
receiver (`receivePacket`) and the interactive session loop
(`interactiveMode`) are shallowly embedded: Go `int32` values are
integers truncated with `toI32`, byte strings are `List Nat`, the
blocking reads of the frame receiver are replayed from an explicit
trace, and a Go slice-bounds violation is modelled as `Option.none`.
-/

namespace McRcon

/-- `RESPONSETYPE` (src/mc-rcon.go line 22): responses to commands. -/
def RESPONSETYPE : Int := 0

/-- `COMMANDTYPE` (line 25): sending commands and receiving a login response. -/
def COMMANDTYPE : Int := 2

/-- `LOGINTYPE` (line 28): sending login requests. -/
def LOGINTYPE : Int := 3

/-- `MAXRECVSIZE` (line 34): the receive buffer size, 12 + 4096 + 2 bytes. -/
def MAXRECVSIZE : Nat := 4110

/-- Truncation of an integer to a signed 32-bit value (two's complement),
as Go does when computing in `int32`.  The constants are 2^31 and 2^32. -/
def toI32 (x : Int) : Int := (x + 2147483648) % 4294967296 - 2147483648

/-- The four bytes `binary.Write(packet, binary.LittleEndian, v)` emits for
an `int32` value `v`: the little-endian unsigned representation of
`v mod 2^32`. -/
def toLE4 (x : Int) : List Nat :=
  [(x % 4294967296).toNat % 256,
   (x % 4294967296).toNat / 256 % 256,
   (x % 4294967296).toNat / 65536 % 256,
   (x % 4294967296).toNat / 16777216 % 256]

/-- The `int32` that `binary.Read(reader, binary.LittleEndian, &v)` assembles
from the first four bytes of `l` (little-endian, then interpreted as a
signed 32-bit value). -/
def decodeLE4 (l : List Nat) : Int :=
  toI32 ((l.getD 0 0 + 256 * l.getD 1 0 + 65536 * l.getD 2 0
          + 16777216 * l.getD 3 0 : Nat) : Int)

/-- Reading a little-endian `int32` at byte offset `off` of `data`. -/
def readI32 (data : List Nat) (off : Nat) : Int := decodeLE4 (data.drop off)

/-- `rconPacket` (lines 92-96): request id and packet type are Go `int32`
fields, the payload string is modelled as its byte sequence. -/
structure rconPacket where
  requestID : Int
  packetType : Int
  payload : List Nat
  deriving DecidableEq

/-- `(rp *rconPacket).serialize()` (lines 98-116): the size field
`int32(4 + 4 + len(payload) + 2)`, then `requestID`, then `packetType`,
each written little-endian, then the payload bytes, then two zero bytes
of padding. -/
def rconPacket.serialize (rp : rconPacket) : List Nat :=
  let packetSize : Int := toI32 (4 + 4 + rp.payload.length + 2)
  toLE4 packetSize ++ toLE4 rp.requestID ++ toLE4 rp.packetType
    ++ rp.payload ++ [0, 0]

/-- `parsePacket(data)` (lines 118-130): reads the three little-endian
header fields (`binary.Read` leaves a field at its zero value when fewer
than four bytes remain in the reader), then slices
`data[12 : packetSize+2]`, the upper bound computed in `int32`
arithmetic.  `none` models the Go slice-bounds panic, which occurs
exactly when `12 ≤ packetSize+2 ≤ len(data)` fails. -/
def parsePacket (data : List Nat) : Option rconPacket :=
  let packetSize : Int := if 4 ≤ data.length then readI32 data 0 else 0
  let requestID : Int := if 8 ≤ data.length then readI32 data 4 else 0
  let packetType : Int := if 12 ≤ data.length then readI32 data 8 else 0
  let hi : Int := toI32 (packetSize + 2)
  if 12 ≤ hi ∧ hi ≤ (data.length : Int) then
    some ⟨requestID, packetType, (data.drop 12).take (hi - 12).toNat⟩
  else
    none

/-- The slice upper bound `packetSize+2` a given input declares: its first
four bytes decoded as an `int32`, plus 2, in `int32` arithmetic. -/
def declaredHi (data : List Nat) : Int := toI32 (decodeLE4 data + 2)

theorem toI32_eq_self {x : Int} (h1 : -2147483648 ≤ x) (h2 : x < 2147483648) :
    toI32 x = x := by
  unfold toI32
  omega

theorem decodeLE4_toLE4 (x : Int) (l : List Nat) :
    decodeLE4 (toLE4 x ++ l) = toI32 x := by
  have hnn : 0 ≤ x % 4294967296 := Int.emod_nonneg x (by norm_num)
  have hcast : (((x % 4294967296).toNat : Int)) = x % 4294967296 :=
    Int.toNat_of_nonneg hnn
  unfold decodeLE4 toLE4
  simp only [List.cons_append, List.getD_cons_zero, List.getD_cons_succ]
  have hsum : (x % 4294967296).toNat % 256
      + 256 * ((x % 4294967296).toNat / 256 % 256)
      + 65536 * ((x % 4294967296).toNat / 65536 % 256)
      + 16777216 * ((x % 4294967296).toNat / 16777216 % 256)
      = (x % 4294967296).toNat := by
    omega
  rw [hsum, hcast]
  unfold toI32
  omega

theorem length_toLE4 (x : Int) : (toLE4 x).length = 4 := by
  simp [toLE4]

theorem drop4_toLE4_append (x : Int) (l : List Nat) :
    (toLE4 x ++ l).drop 4 = l := rfl

theorem drop8_toLE4_append (x y : Int) (l : List Nat) :
    (toLE4 x ++ (toLE4 y ++ l)).drop 8 = l := rfl

theorem drop12_toLE4_append (x y z : Int) (l : List Nat) :
    (toLE4 x ++ (toLE4 y ++ (toLE4 z ++ l))).drop 12 = l := rfl

theorem serialize_length (rp : rconPacket) :
    rp.serialize.length = rp.payload.length + 14 := by
  simp [rconPacket.serialize, toLE4]

/-- `serialize` written as a right-associated concatenation. -/
theorem serialize_eq (rp : rconPacket) :
    rp.serialize
      = toLE4 (toI32 (4 + 4 + rp.payload.length + 2))
        ++ (toLE4 rp.requestID ++ (toLE4 rp.packetType
        ++ (rp.payload ++ [0, 0]))) := by
  simp [rconPacket.serialize, List.append_assoc]

/-- C1: for every packet whose payload is at most 4096 bytes (and whose
request id and packet type are `int32` values, as in the Go struct),
parsing the serialized bytes reconstructs the original request id, packet
type and payload. -/
theorem parse_serialize_roundtrip (rid pt : Int) (payload : List Nat)
    (hr1 : -2147483648 ≤ rid) (hr2 : rid < 2147483648)
    (ht1 : -2147483648 ≤ pt) (ht2 : pt < 2147483648)
    (hlen : payload.length ≤ 4096) :
    parsePacket (rconPacket.serialize ⟨rid, pt, payload⟩)
      = some ⟨rid, pt, payload⟩ := by
  set data := rconPacket.serialize ⟨rid, pt, payload⟩ with hdef
  have hdata : data
      = toLE4 (toI32 (4 + 4 + payload.length + 2))
        ++ (toLE4 rid ++ (toLE4 pt ++ (payload ++ [0, 0]))) :=
    serialize_eq ⟨rid, pt, payload⟩
  have hlen14 : data.length = payload.length + 14 :=
    serialize_length ⟨rid, pt, payload⟩
  have hsz : toI32 (4 + 4 + (payload.length : Int) + 2)
      = (payload.length : Int) + 10 := by
    unfold toI32
    omega
  have e0 : decodeLE4 data = (payload.length : Int) + 10 := by
    rw [hdata, decodeLE4_toLE4, hsz]
    unfold toI32
    omega
  have e4 : decodeLE4 (data.drop 4) = rid := by
    rw [hdata, drop4_toLE4_append, decodeLE4_toLE4]
    unfold toI32
    omega
  have e8 : decodeLE4 (data.drop 8) = pt := by
    rw [hdata, drop8_toLE4_append, decodeLE4_toLE4]
    unfold toI32
    omega
  have e12 : data.drop 12 = payload ++ [0, 0] := by
    rw [hdata, drop12_toLE4_append]
  have hhi : toI32 ((payload.length : Int) + 10 + 2)
      = (payload.length : Int) + 12 := by
    unfold toI32
    omega
  simp only [parsePacket, readI32, List.drop_zero]
  rw [if_pos (by omega : 4 ≤ data.length), e0, hhi,
      if_pos (by omega : 8 ≤ data.length),
      if_pos (by omega : 12 ≤ data.length), e4, e8, e12]
  rw [if_pos (by constructor <;> omega :
        (12 : Int) ≤ (payload.length : Int) + 12
          ∧ (payload.length : Int) + 12 ≤ (data.length : Int))]
  have htk : ((payload.length : Int) + 12 - 12).toNat = payload.length := by
    omega
  rw [htk, List.take_append_of_le_length (le_refl _), List.take_length]

/-- C1 witness: the round trip evaluated at a concrete packet. -/
theorem parse_serialize_roundtrip_witness :
    parsePacket (rconPacket.serialize ⟨5, 3, [104, 105]⟩)
      = some ⟨5, 3, [104, 105]⟩ :=
  parse_serialize_roundtrip 5 3 [104, 105] (by norm_num) (by norm_num)
    (by norm_num) (by norm_num) (by norm_num)

/-- C2: for every packet with a payload within the protocol's 4096-byte
convention, `serialize` produces the size field `8 + len(payload) + 2`
little-endian, then the request id, the packet type, the raw payload and
two zero bytes; its first four bytes decode to `8 + len(payload) + 2` and
the total length is `len(payload) + 14`. -/
theorem serialize_layout (rp : rconPacket) (h : rp.payload.length ≤ 4096) :
    rp.serialize
      = toLE4 (8 + rp.payload.length + 2) ++ toLE4 rp.requestID
        ++ toLE4 rp.packetType ++ rp.payload ++ [0, 0]
    ∧ decodeLE4 rp.serialize = 8 + rp.payload.length + 2
    ∧ rp.serialize.length = rp.payload.length + 14 := by
  have hsz : toI32 (4 + 4 + (rp.payload.length : Int) + 2)
      = 8 + (rp.payload.length : Int) + 2 := by
    unfold toI32
    omega
  refine ⟨?_, ?_, serialize_length rp⟩
  · simp only [rconPacket.serialize]
    rw [hsz]
  · rw [serialize_eq, decodeLE4_toLE4, hsz]
    unfold toI32
    omega

/-- C2 witness: the layout evaluated at a concrete packet. -/
theorem serialize_layout_witness :
    rconPacket.serialize ⟨7, 2, [97]⟩
      = toLE4 (8 + ([97] : List Nat).length + 2) ++ toLE4 7 ++ toLE4 2
        ++ [97] ++ [0, 0]
    ∧ decodeLE4 (rconPacket.serialize ⟨7, 2, [97]⟩)
        = 8 + ([97] : List Nat).length + 2
    ∧ (rconPacket.serialize ⟨7, 2, [97]⟩).length
        = ([97] : List Nat).length + 14 :=
  serialize_layout ⟨7, 2, [97]⟩ (by norm_num)

theorem decodeLE4_append_left (l l' : List Nat) (h : 4 ≤ l.length) :
    decodeLE4 (l ++ l') = decodeLE4 l := by
  unfold decodeLE4
  rw [List.getD_append _ _ _ _ (by omega), List.getD_append _ _ _ _ (by omega),
      List.getD_append _ _ _ _ (by omega), List.getD_append _ _ _ _ (by omega)]

theorem getD_take_eq (l : List Nat) (k n d : Nat) (hn : n < k)
    (hk : k ≤ l.length) : (l.take k).getD n d = l.getD n d := by
  conv_rhs => rw [← List.take_append_drop k l]
  rw [List.getD_append _ _ _ _ (by rw [List.length_take]; omega)]

theorem decodeLE4_take (l : List Nat) (k : Nat) (h4 : 4 ≤ k)
    (hk : k ≤ l.length) : decodeLE4 (l.take k) = decodeLE4 l := by
  unfold decodeLE4
  rw [getD_take_eq l k 0 0 (by omega) hk, getD_take_eq l k 1 0 (by omega) hk,
      getD_take_eq l k 2 0 (by omega) hk, getD_take_eq l k 3 0 (by omega) hk]

theorem readI32_append_left (data extra : List Nat) (off : Nat)
    (h : off + 4 ≤ data.length) :
    readI32 (data ++ extra) off = readI32 data off := by
  unfold readI32
  rw [List.drop_append_of_le_length (by omega)]
  exact decodeLE4_append_left _ _ (by rw [List.length_drop]; omega)

/-- When the declared slice bound is in range, `parsePacket` succeeds and
returns the two remaining header fields together with
`data[12 : packetSize+2]` as the payload. -/
theorem parse_some (data : List Nat) (h12 : 12 ≤ declaredHi data)
    (hlen : declaredHi data ≤ (data.length : Int)) :
    parsePacket data
      = some ⟨readI32 data 4, readI32 data 8,
              (data.drop 12).take (declaredHi data - 12).toNat⟩ := by
  have hl12 : 12 ≤ data.length := by omega
  simp only [parsePacket, readI32, List.drop_zero]
  rw [if_pos (by omega : 4 ≤ data.length),
      if_pos (by omega : 8 ≤ data.length),
      if_pos (by omega : 12 ≤ data.length)]
  unfold declaredHi at h12 hlen
  rw [if_pos ⟨h12, hlen⟩]
  simp only [readI32, declaredHi]

/-- C5 (counterexample): a 12-byte input, all zeros, satisfies the claim's
precondition — length at least 12 and length at least the declared
`size+2` (here 2) — yet the slice `data[12 : 2]` is out of bounds and
parsing panics (`none`) instead of returning a payload. -/
theorem parse_oob_despite_precondition :
    (List.replicate 12 0).length = 12
    ∧ decodeLE4 (List.replicate 12 0) = 0
    ∧ declaredHi (List.replicate 12 0)
        ≤ ((List.replicate 12 0).length : Int)
    ∧ parsePacket (List.replicate 12 0) = none := by
  decide

/-- C5 (amended): when the input is at least 12 bytes long and the slice
bound `size+2` (declared size field plus 2, in `int32` arithmetic) is
between 12 and the input length, `parsePacket` stays in bounds and
returns `data[12 : size+2]` as the payload; and some input shorter than
its declared `size+2` makes the slice go out of bounds (`none`). -/
theorem parse_inbounds (data : List Nat) (h12 : 12 ≤ declaredHi data)
    (hlen : declaredHi data ≤ (data.length : Int)) :
    parsePacket data
      = some ⟨readI32 data 4, readI32 data 8,
              (data.drop 12).take (declaredHi data - 12).toNat⟩
    ∧ ∃ d : List Nat, (d.length : Int) < declaredHi d ∧ parsePacket d = none :=
  ⟨parse_some data h12 hlen,
   ⟨toLE4 100 ++ List.replicate 8 0, by decide, by decide⟩⟩

/-- C5 witness: the amended theorem at a concrete 12-byte frame with
declared size 10 and empty payload. -/
theorem parse_inbounds_witness :
    parsePacket (toLE4 10 ++ toLE4 1 ++ toLE4 2) = some ⟨1, 2, []⟩ := by
  have h := parse_inbounds (toLE4 10 ++ toLE4 1 ++ toLE4 2)
    (by decide) (by decide)
  rw [h.1]
  decide

/-- Trailing bytes past the end of `data` never change the parse result
when the declared slice bound of `data` is in range. -/
theorem parsePacket_append (data extra : List Nat)
    (h12 : 12 ≤ declaredHi data)
    (hlen : declaredHi data ≤ (data.length : Int)) :
    parsePacket (data ++ extra) = parsePacket data := by
  have hl12 : 12 ≤ data.length := by omega
  have hDapp : declaredHi (data ++ extra) = declaredHi data := by
    unfold declaredHi
    rw [decodeLE4_append_left _ _ (by omega)]
  rw [parse_some data h12 hlen,
      parse_some (data ++ extra) (by rw [hDapp]; exact h12)
        (by rw [hDapp, List.length_append]; push_cast; omega)]
  rw [hDapp,
      readI32_append_left data extra 4 (by omega),
      readI32_append_left data extra 8 (by omega),
      List.drop_append_of_le_length (by omega : 12 ≤ data.length),
      List.take_append_of_le_length (by rw [List.length_drop]; omega)]

/-- C10: for every input whose declared slice bound `size+2` is in range,
the parse result is unchanged by appending arbitrary trailing bytes and
equals the parse of just the first `size+2` bytes: nothing past the
declared bound — the two padding bytes included — is examined, and the
declared size is never checked against the actual input length. -/
theorem parsePacket_reads_only_declared_bytes (data extra : List Nat)
    (h12 : 12 ≤ declaredHi data)
    (hlen : declaredHi data ≤ (data.length : Int)) :
    parsePacket (data ++ extra) = parsePacket data
    ∧ parsePacket (data.take (declaredHi data).toNat) = parsePacket data := by
  have hl12 : 12 ≤ data.length := by omega
  refine ⟨parsePacket_append data extra h12 hlen, ?_⟩
  obtain ⟨k, hk⟩ : ∃ k, (declaredHi data).toNat = k := ⟨_, rfl⟩
  rw [hk]
  have hk12 : 12 ≤ k := by omega
  have hkl : k ≤ data.length := by omega
  have hDtake : declaredHi (data.take k) = declaredHi data := by
    unfold declaredHi
    rw [decodeLE4_take data k (by omega) hkl]
  have hlt : (data.take k).length = k := by
    rw [List.length_take]
    omega
  conv_rhs => rw [← List.take_append_drop k data]
  exact (parsePacket_append (data.take k) (data.drop k)
    (by rw [hDtake]; exact h12)
    (by rw [hDtake, hlt]; omega)).symm

/-- C10 witness: appending trailing garbage after a well-formed frame does
not change the parse result. -/
theorem parsePacket_reads_only_declared_bytes_witness :
    parsePacket ((toLE4 10 ++ toLE4 1 ++ toLE4 2) ++ [9, 9, 9])
        = parsePacket (toLE4 10 ++ toLE4 1 ++ toLE4 2)
    ∧ parsePacket ((toLE4 10 ++ toLE4 1 ++ toLE4 2).take
          (declaredHi (toLE4 10 ++ toLE4 1 ++ toLE4 2)).toNat)
        = parsePacket (toLE4 10 ++ toLE4 1 ++ toLE4 2) :=
  parsePacket_reads_only_declared_bytes (toLE4 10 ++ toLE4 1 ++ toLE4 2)
    [9, 9, 9] (by decide) (by decide)

/-- One `conn.Read(buf)` outcome observed by `receivePacket`
(lines 161-186): `ok chunk` is a read with `err == nil` returning
`chunk` (so `n = chunk.length`, never more than `len(buf)`), `eof` is
`(0, io.EOF)`, and `fail` is a read error other than `io.EOF` (deadline
exceeded or socket failure). -/
inductive ReadResult where
  | ok (chunk : List Nat)
  | eof
  | fail
  deriving DecidableEq

/-- What `receivePacket` returns: in Go the pair `([]byte, error)`.
`result bytes errored` is a return, where `errored = true` is the
`return nil, err` path (so `bytes` is then empty); `pending` models the
loop still blocked on its next read once the trace is exhausted. -/
inductive RecvOut where
  | result (bytes : List Nat) (errored : Bool)
  | pending
  deriving DecidableEq

/-- The accumulation loop of `receivePacket` (lines 164-182), replayed
over an explicit trace of read outcomes, mirroring the source's order of
checks: `err == io.EOF || n == 0` breaks with the accumulator, a non-nil
error returns `nil, err`, otherwise the chunk is appended and
`n < len(buf)` (the buffer being `MAXRECVSIZE` bytes) breaks. -/
def receivePacketLoop : List ReadResult → List Nat → RecvOut
  | [], _ => .pending
  | .eof :: _, acc => .result acc false
  | .fail :: _, _ => .result [] true
  | .ok chunk :: rest, acc =>
    if chunk.length = 0 then .result acc false
    else if chunk.length < MAXRECVSIZE then .result (acc ++ chunk) false
    else receivePacketLoop rest (acc ++ chunk)

/-- `receivePacket(conn)` (lines 161-186): the loop started with an empty
accumulator. -/
def receivePacket (trace : List ReadResult) : RecvOut :=
  receivePacketLoop trace []

theorem receivePacketLoop_full_short (cs : List (List Nat)) (c : List Nat)
    (rest : List ReadResult)
    (hfull : ∀ x ∈ cs, x.length = MAXRECVSIZE)
    (hshort : c.length < MAXRECVSIZE) :
    ∀ acc : List Nat,
      receivePacketLoop (cs.map ReadResult.ok ++ ReadResult.ok c :: rest) acc
        = .result (acc ++ (cs.flatten ++ c)) false := by
  induction cs with
  | nil =>
    intro acc
    by_cases hc : c.length = 0
    · have hc' : c = [] := List.length_eq_zero.mp hc
      subst hc'
      simp [receivePacketLoop]
    · simp [receivePacketLoop, hc, hshort]
  | cons x cs ih =>
    intro acc
    have hx : x.length = MAXRECVSIZE := hfull x (List.mem_cons_self x cs)
    have ih' := ih (fun y hy => hfull y (List.mem_cons_of_mem x hy))
    simp only [List.map_cons, List.cons_append, receivePacketLoop]
    rw [if_neg (by rw [hx]; decide), if_neg (by rw [hx]; omega)]
    simp only [List.append_eq]
    rw [ih' (acc ++ x)]
    simp [List.append_assoc]

theorem receivePacketLoop_full_eof (cs : List (List Nat))
    (rest : List ReadResult)
    (hfull : ∀ x ∈ cs, x.length = MAXRECVSIZE) :
    ∀ acc : List Nat,
      receivePacketLoop (cs.map ReadResult.ok ++ ReadResult.eof :: rest) acc
        = .result (acc ++ cs.flatten) false := by
  induction cs with
  | nil =>
    intro acc
    simp [receivePacketLoop]
  | cons x cs ih =>
    intro acc
    have hx : x.length = MAXRECVSIZE := hfull x (List.mem_cons_self x cs)
    have ih' := ih (fun y hy => hfull y (List.mem_cons_of_mem x hy))
    simp only [List.map_cons, List.cons_append, receivePacketLoop]
    rw [if_neg (by rw [hx]; decide), if_neg (by rw [hx]; omega)]
    simp only [List.append_eq]
    rw [ih' (acc ++ x)]
    simp [List.append_assoc]

/-- C4: the frame receiver appends every chunk a successful read returns
and stops exactly at the first read that reports end-of-stream, returns
zero bytes, or returns fewer than the buffer's full `MAXRECVSIZE = 4110`
bytes (later reads in the trace are never consumed); it returns the
concatenation of the appended chunks — possibly empty — with no error. -/
theorem receivePacket_reassembly (cs : List (List Nat)) (c : List Nat)
    (rest : List ReadResult)
    (hfull : ∀ x ∈ cs, x.length = MAXRECVSIZE)
    (hshort : c.length < MAXRECVSIZE) :
    receivePacket (cs.map ReadResult.ok ++ ReadResult.ok c :: rest)
      = .result (cs.flatten ++ c) false
    ∧ receivePacket (cs.map ReadResult.ok ++ ReadResult.eof :: rest)
      = .result cs.flatten false := by
  constructor
  · have h := receivePacketLoop_full_short cs c rest hfull hshort []
    simpa [receivePacket] using h
  · have h := receivePacketLoop_full_eof cs rest hfull []
    simpa [receivePacket] using h

/-- C4 witness: a single short read, and a connection closed with no
data. -/
theorem receivePacket_reassembly_witness :
    receivePacket [ReadResult.ok [1, 2, 3]] = .result [1, 2, 3] false
    ∧ receivePacket [ReadResult.eof] = .result [] false := by
  have h := receivePacket_reassembly [] [1, 2, 3] [] (by simp) (by decide)
  simpa using h

/-- The decision `login` takes on the parsed reply (lines 215-222), given
the request id it sent: `none` is success (`return nil`), and the two
`some` messages are the source's literal `fmt.Errorf` strings — the
spec's `AuthError` and `ProtocolError` respectively. -/
def loginCheck (requestID : Int) (p : rconPacket) : Option String :=
  if p.requestID = requestID ∧ p.packetType = COMMANDTYPE then none
  else if p.requestID = -1 then some "Password is incorrect"
  else some "Login failed"

/-- C3: login succeeds exactly when the reply echoes the sent request id
with packet type `COMMANDTYPE` (2); otherwise a reply request id of `-1`
fails with the authentication error ("Password is incorrect"), and every
remaining case fails with the protocol error ("Login failed"). -/
theorem loginCheck_cases (requestID : Int) (p : rconPacket) :
    (loginCheck requestID p = none
      ↔ (p.requestID = requestID ∧ p.packetType = COMMANDTYPE))
    ∧ (loginCheck requestID p = some "Password is incorrect"
      ↔ (¬(p.requestID = requestID ∧ p.packetType = COMMANDTYPE)
          ∧ p.requestID = -1))
    ∧ (loginCheck requestID p = some "Login failed"
      ↔ (¬(p.requestID = requestID ∧ p.packetType = COMMANDTYPE)
          ∧ p.requestID ≠ -1)) := by
  have hne : ("Password is incorrect" : String) ≠ "Login failed" := by decide
  unfold loginCheck
  split_ifs with h1 h2
  · exact ⟨⟨fun _ => h1, fun _ => rfl⟩,
           ⟨fun h => h.elim, fun h => absurd h1 h.1⟩,
           ⟨fun h => h.elim, fun h => absurd h1 h.1⟩⟩
  · exact ⟨⟨fun h => h.elim, fun h => absurd h h1⟩,
           ⟨fun _ => ⟨h1, h2⟩, fun _ => rfl⟩,
           ⟨fun h => absurd (Option.some.inj h) hne, fun h => absurd h2 h.2⟩⟩
  · exact ⟨⟨fun h => h.elim, fun h => absurd h h1⟩,
           ⟨fun h => absurd (Option.some.inj h) (Ne.symm hne),
            fun h => absurd h.2 h2⟩,
           ⟨fun _ => ⟨h1, h2⟩, fun _ => rfl⟩⟩

/-- C9: the success check precedes the `-1` sentinel check, so a login
sent with request id `-1` whose reply echoes `-1` with packet type
Command succeeds rather than failing with the authentication-rejected
error. -/
theorem loginCheck_sentinel_echo_succeeds (payload : List Nat) :
    loginCheck (-1) ⟨-1, COMMANDTYPE, payload⟩ = none := by
  simp [loginCheck]

/-- The outcome of one `reader.ReadString` call of the interactive loop
(lines 242-252): a line of input, end of input (the `io.EOF` branch), or
any other read error. -/
inductive ReadLineRes where
  | line (s : String)
  | eofInput
  | errInput
  deriving DecidableEq

/-- The environment one iteration of the interactive loop consumes: the
stdin read outcome, whether `sendPacket` succeeded, and the trace of
transport reads `receivePacket` replays. -/
structure IterInput where
  readRes : ReadLineRes
  sendOK : Bool
  recvTrace : List ReadResult
  deriving DecidableEq

/-- The errors the command-source goroutine can send on `errchan`:
a stdin read error forwarded as-is (line 250), a `sendPacket` network
error forwarded as-is (line 257), or a `fmt.Errorf` protocol error with
its message (line 263).  The goroutine sends `none` (Go `nil`) for
graceful termination. -/
inductive RconError where
  | ioErr
  | netErr
  | protoErr (msg : String)
  deriving DecidableEq

/-- What one iteration of the command-source goroutine does: `term e`
sends `e` on `errchan` and returns — `interactiveMode` then returns `e`
(line 272); `cont payload` prints the parsed reply's payload and loops;
`panicked` models the `parsePacket` slice panic; `stuck` a loop blocked
on an exhausted trace. -/
inductive StepRes where
  | term (e : Option RconError)
  | cont (payload : List Nat)
  | panicked
  | stuck
  deriving DecidableEq

/-- One iteration of the interactive loop (lines 240-269).  The pair
`receivePacket` returns is destructured exactly as the source does:
`bytes` is the returned slice, and the returned `error` is bound but —
as at line 261-262 of the source — never examined; the
`len(responsePacket) == 0` check is the only one performed before
parsing. -/
def execStep (it : IterInput) : StepRes :=
  match it.readRes with
  | .eofInput => .term none
  | .errInput => .term (some .ioErr)
  | .line _ =>
    if it.sendOK then
      match receivePacket it.recvTrace with
      | .pending => .stuck
      | .result bytes _ =>
        if bytes.length = 0 then
          .term (some (.protoErr "No response received"))
        else
          match parsePacket bytes with
          | none => .panicked
          | some p => .cont p.payload
    else .term (some .netErr)

/-- The command-source goroutine of `interactiveMode` (lines 238-270),
replayed over a list of per-iteration environments: the first terminal
action decides the value sent on `errchan`, which `interactiveMode`
returns. -/
def commandLoop : List IterInput → StepRes
  | [] => .stuck
  | it :: rest =>
    match execStep it with
    | .cont _ => commandLoop rest
    | r => r

/-- C6: a transport read failure during a command exchange is not
reported as the network error: `receivePacket` returns `nil, err`, and
the loop — checking only `len(responsePacket) == 0` and never `err` —
terminates with the protocol error "No response received" instead. -/
theorem execStep_read_error_swallowed :
    receivePacket [ReadResult.fail] = .result [] true
    ∧ commandLoop [⟨.line "list", true, [ReadResult.fail]⟩]
        = .term (some (.protoErr "No response received"))
    ∧ commandLoop [⟨.line "list", true, [ReadResult.fail]⟩]
        ≠ .term (some .netErr) := by
  refine ⟨by decide, by decide, by decide⟩

/-- C7: when the received reply buffer is empty — the peer closed the
connection with no data — the exchange terminates the loop with the
protocol error "No response received". -/
theorem commandLoop_empty_reply (s : String) (trace : List ReadResult)
    (rest : List IterInput)
    (hrecv : receivePacket trace = .result [] false) :
    commandLoop (⟨.line s, true, trace⟩ :: rest)
      = .term (some (.protoErr "No response received")) := by
  simp [commandLoop, execStep, hrecv]

/-- C7 witness: a connection closed by the peer before any data. -/
theorem commandLoop_empty_reply_witness :
    receivePacket [ReadResult.eof] = .result [] false
    ∧ commandLoop [⟨.line "stop", true, [ReadResult.eof]⟩]
        = .term (some (.protoErr "No response received")) :=
  ⟨by decide, commandLoop_empty_reply "stop" [ReadResult.eof] [] (by decide)⟩

/-- C8: end of input on the command source terminates the driver
gracefully: the goroutine sends `nil` on `errchan` (`term none`, the
"no error" outcome), never a protocol or other error. -/
theorem commandLoop_eof_graceful (sendOK : Bool) (trace : List ReadResult)
    (rest : List IterInput) :
    commandLoop (⟨.eofInput, sendOK, trace⟩ :: rest) = .term none := rfl

end McRcon
